import Mathlib

/-!
Verification of the WebSocket game server (`server.js`): frame codec,
connection registry, message dispatcher, state synchronizer and hit
resolution engine, shallowly embedded in Lean.

JavaScript numbers are modelled as exact rationals; byte buffers as
lists of naturals (values < 256 where the code produces them); the
insertion-ordered JS Map as an association list.
-/

namespace GameServer

/-- A 3D vector, as carried by the `origin` and `direction` fields of a
`shoot` message. -/
structure Vec3 where
  x : ℚ
  y : ℚ
  z : ℚ
deriving DecidableEq, Repr

/-- A player's client-submitted state object. The server reads the
fields `x`, `y`, `z` and `health`; orientation fields are carried along
untouched. -/
structure PlayerState where
  x : ℚ
  y : ℚ
  z : ℚ
  yaw : ℚ
  pitch : ℚ
  health : ℚ
deriving DecidableEq, Repr

/-- One entry of the server's `clients` map:
`{ socket, name, state, kills, deaths, buffer }`. The socket is
represented by the entry's id (messages are addressed by id); `state`
is `none` for the initial empty object `{}` set at registration, which
the shoot loop can never hit (all its NaN comparisons are false),
exactly as skipping it here. -/
structure Client where
  name : String
  state : Option PlayerState
  kills : ℕ
  deaths : ℕ
deriving DecidableEq, Repr

/-- The insertion-ordered `clients` map, id to client. -/
abbrev ClientMap := List (ℕ × Client)

/-- The map lookup `clients.get(k)`: first entry with key `k`. -/
def mapGet (m : ClientMap) (k : ℕ) : Option Client :=
  match m with
  | [] => none
  | (k', v) :: rest => if k' = k then some v else mapGet rest k

/-- In-place mutation of the client object stored at key `k`
(e.g. `client.name = ...`, `victim.state.health -= 25`). Entries with
other keys are untouched; a missing key is a no-op on the map (the JS
mutation then hits a detached object, invisible to the map). -/
def mapUpdate (m : ClientMap) (k : ℕ) (f : Client → Client) : ClientMap :=
  match m with
  | [] => []
  | (k', v) :: rest =>
    (if k' = k then (k', f v) else (k', v)) :: mapUpdate rest k f

/-- The map removal `clients.delete(k)`. -/
def mapDelete (m : ClientMap) (k : ℕ) : ClientMap :=
  m.filter (fun e => e.1 ≠ k)

/-- The map insertion `clients.set(k, v)`: update in place if present, else append. -/
def mapSet (m : ClientMap) (k : ℕ) (v : Client) : ClientMap :=
  if (m.map Prod.fst).contains k then
    m.map (fun e => if e.1 = k then (k, v) else e)
  else m ++ [(k, v)]

/-- Well-formedness of the map: no duplicate keys. The JS `Map`
guarantees this by construction. -/
def WFMap (m : ClientMap) : Prop := (m.map Prod.fst).Nodup

/-! ## Frame codec -/

/-- The big-endian 16-bit read `buf.readUInt16BE(off)`. -/
def readUInt16BE (buf : List ℕ) (off : ℕ) : ℕ :=
  buf.getD off 0 * 256 + buf.getD (off + 1) 0

/-- The big-endian 32-bit read `buf.readUInt32BE(off)`. -/
def readUInt32BE (buf : List ℕ) (off : ℕ) : ℕ :=
  buf.getD off 0 * 2 ^ 24 + buf.getD (off + 1) 0 * 2 ^ 16 +
    buf.getD (off + 2) 0 * 2 ^ 8 + buf.getD (off + 3) 0

/-- The buffer slice `buf.slice(start, start + len)`. -/
def bufSlice (buf : List ℕ) (start len : ℕ) : List ℕ :=
  (buf.drop start).take len

/-- The unmasking loop `payload[i] ^= mask[i % 4]`, starting at index
`i`. -/
def xorMask (mask : List ℕ) (i : ℕ) (payload : List ℕ) : List ℕ :=
  match payload with
  | [] => []
  | b :: rest => (b ^^^ mask.getD (i % 4) 0) :: xorMask mask (i + 1) rest

/-- The length-decoding step of `parseBuffer`: from the 7-bit length
field `len0`, the real payload length and the offset where the mask or
payload starts, or `none` when the extended length bytes are not yet
buffered. -/
def parseLen (buf : List ℕ) (len0 : ℕ) : Option (ℕ × ℕ) :=
  if len0 = 126 then
    if buf.length < 4 then none
    else some (readUInt16BE buf 2, 4)
  else if len0 = 127 then
    if buf.length < 10 then none
    else some (readUInt32BE buf 2 * 2 ^ 32 + readUInt32BE buf 6, 10)
  else some (len0, 2)

/-- One iteration of the `parseBuffer` loop: attempt to extract a single
frame from the front of the buffer. Returns the opcode, the unmasked
payload, and the number of consumed bytes, or `none` when the buffer
does not yet hold header + optional mask + payload (each `break` in the
source). -/
def parseOne (buf : List ℕ) : Option (ℕ × List ℕ × ℕ) :=
  if buf.length < 2 then none
  else
    match parseLen buf (buf.getD 1 0 &&& 0x7f) with
    | none => none
    | some (length, offset) =>
      if buf.getD 1 0 &&& 0x80 ≠ 0 then
        if buf.length < offset + 4 then none
        else
          if buf.length < (offset + 4) + length then none
          else
            some (buf.getD 0 0 &&& 0x0f,
              xorMask (bufSlice buf offset 4) 0 (bufSlice buf (offset + 4) length),
              (offset + 4) + length)
      else
        if buf.length < offset + length then none
        else some (buf.getD 0 0 &&& 0x0f, bufSlice buf offset length, offset + length)

theorem parseLen_offset {buf : List ℕ} {len0 len off : ℕ}
    (h : parseLen buf len0 = some (len, off)) : 2 ≤ off := by
  unfold parseLen at h
  split_ifs at h <;> simp_all <;> omega

theorem parseOne_consumed {buf : List ℕ} {op : ℕ} {p : List ℕ} {c : ℕ}
    (h : parseOne buf = some (op, p, c)) : 2 ≤ c ∧ c ≤ buf.length := by
  unfold parseOne at h
  split at h
  · exact absurd h (by simp)
  · split at h
    · exact absurd h (by simp)
    · rename_i len offset hlen
      have hoff : 2 ≤ offset := parseLen_offset hlen
      split_ifs at h <;> simp_all <;> omega

/-- The full `parseBuffer` loop: extract frames repeatedly until the
buffer is exhausted or holds an incomplete frame; return the extracted
(opcode, payload) pairs and the retained remainder. -/
def parseAll (buf : List ℕ) : List (ℕ × List ℕ) × List ℕ :=
  match h : parseOne buf with
  | none => ([], buf)
  | some (op, p, c) =>
    let r := parseAll (buf.drop c)
    ((op, p) :: r.1, r.2)
termination_by buf.length
decreasing_by
  have := parseOne_consumed h
  simp only [List.length_drop]
  omega

/-- The write `buf.writeUInt16BE(n, _)`: the two big-endian bytes of `n`. -/
def writeUInt16BE (n : ℕ) : List ℕ := [n / 2 ^ 8 % 256, n % 256]

/-- The write `buf.writeBigUInt64BE(n, _)`: the eight big-endian bytes of `n`. -/
def writeUInt64BE (n : ℕ) : List ℕ :=
  [n / 2 ^ 56 % 256, n / 2 ^ 48 % 256, n / 2 ^ 40 % 256, n / 2 ^ 32 % 256,
    n / 2 ^ 24 % 256, n / 2 ^ 16 % 256, n / 2 ^ 8 % 256, n % 256]

/-- The frame built by `sendWS` for a payload of bytes: FIN set, opcode
text (first byte 0x81), unmasked, with the three-tier length encoding. -/
def sendWSFrame (payload : List ℕ) : List ℕ :=
  let n := payload.length
  if n < 126 then 0x81 :: n :: payload
  else if n < 65536 then 0x81 :: 126 :: (writeUInt16BE n ++ payload)
  else 0x81 :: 127 :: (writeUInt64BE n ++ payload)

/-- Client-side masking of an unmasked frame: set the mask bit of the
second byte, insert the 4-byte key after the extended length, and XOR
each payload byte with key[i mod 4]. -/
def maskFrame (key : List ℕ) (frame : List ℕ) : List ℕ :=
  match frame with
  | b1 :: b2 :: rest =>
    let len0 := b2 &&& 0x7f
    let extLen := if len0 = 126 then 2 else if len0 = 127 then 8 else 0
    b1 :: (b2 + 0x80) :: (rest.take extLen ++ key ++ xorMask key 0 (rest.drop extLen))
  | _ => frame

/-! ## Messages and game-server state -/

/-- A decoded client-to-server message, after JSON parsing and the
`data.type` dispatch. `unknown` covers unrecognized types and parse
failures (the `default` branch and the `catch`). -/
inductive ClientMsg where
  | init (name : String) (state : Option PlayerState)
  | update (state : Option PlayerState)
  | shoot (origin : Vec3) (direction : Vec3)
  | unknown
deriving DecidableEq, Repr

/-- A server-to-client message. The catch-up `playerJoined` carries
kills and deaths (`kd = some _`); the join broadcast does not
(`kd = none`), matching the optional fields of the JSON schema. -/
inductive ServerMsg where
  | welcome (id : ℕ)
  | playerJoined (id : ℕ) (name : String) (state : Option PlayerState)
      (kd : Option (ℕ × ℕ))
  | playerLeft (id : ℕ)
  | update (id : ℕ) (state : Option PlayerState)
  | playerKilled (killer : ℕ) (victim : ℕ)
deriving DecidableEq, Repr

/-- An outbound transmission: recipient connection id and message. -/
abbrev Out := ℕ × ServerMsg

/-- The fan-out `broadcast(data)`: send to every registered connection, the sender
of the triggering message included. -/
def broadcast (m : ClientMap) (msg : ServerMsg) : List Out :=
  m.map (fun e => (e.1, msg))

/-- The fan-out `broadcastExcept(exceptId, data)`. -/
def broadcastExcept (m : ClientMap) (exceptId : ℕ) (msg : ServerMsg) : List Out :=
  (m.filter (fun e => e.1 ≠ exceptId)).map (fun e => (e.1, msg))

/-- The whole server state: the `clients` map and the `nextId`
counter. -/
structure ServerState where
  clients : ClientMap
  nextId : ℕ
deriving DecidableEq, Repr

/-- The client object created at handshake:
`{ name: '', state: {}, kills: 0, deaths: 0 }`. -/
def freshClient : Client := { name := "", state := none, kills := 0, deaths := 0 }

/-- The upgrade handler after a successful handshake: assign
`nextId++`, register the fresh client, send `welcome`. Returns the new
state, the assigned id, and the transmissions. -/
def connect (st : ServerState) : ServerState × ℕ × List Out :=
  let playerId := st.nextId
  (⟨mapSet st.clients playerId freshClient, st.nextId + 1⟩, playerId,
    [(playerId, .welcome playerId)])

/-- The close handler `removeClient(id)`: if registered, delete the entry and broadcast
`playerLeft` to the remaining connections — unconditionally, whether or
not the client ever sent `init`. -/
def removeClient (st : ServerState) (id : ℕ) : ServerState × List Out :=
  match mapGet st.clients id with
  | none => (st, [])
  | some _ =>
    let clients' := mapDelete st.clients id
    (⟨clients', st.nextId⟩, broadcast clients' (.playerLeft id))

/-- The geometric hit test of the shoot loop for one candidate state:
projection of the target-relative position on the ray direction within
[0, 50] and squared distance from the closest ray point below 0.6². -/
def isHit (origin direction : Vec3) (s : PlayerState) : Bool :=
  let dx := s.x - origin.x
  let dy := s.y - origin.y
  let dz := s.z - origin.z
  let proj := dx * direction.x + dy * direction.y + dz * direction.z
  if proj < 0 ∨ proj > 50 then false
  else
    let closestX := origin.x + proj * direction.x
    let closestY := origin.y + proj * direction.y
    let closestZ := origin.z + proj * direction.z
    decide ((s.x - closestX) ^ 2 + (s.y - closestY) ^ 2 + (s.z - closestZ) ^ 2 <
      (0.6 : ℚ) * 0.6)

/-- Whether a registered client is a candidate the shoot loop can hit:
its state must be known and pass the geometric test. (A client whose
state is still the empty object fails every comparison through NaN in
the source, which is the same outcome as skipping it.) -/
def clientHit (origin direction : Vec3) (c : Client) : Bool :=
  match c.state with
  | none => false
  | some s => isHit origin direction s

/-- The candidate loop of the `shoot` case: iterate the clients map in
insertion order, skip the shooter, and stop at the first client passing
the hit test. -/
def findHit (m : ClientMap) (playerId : ℕ) (origin direction : Vec3) : Option ℕ :=
  match m with
  | [] => none
  | (id, other) :: rest =>
    if id = playerId then findHit rest playerId origin direction
    else if clientHit origin direction other then some id
    else findHit rest playerId origin direction

/-- The kill branch of the `shoot` case, after the victim's health has
already been decremented and found ≤ 0. `rx` and `rz` are the two
`Math.random()` draws (each in [0,1)). -/
def killVictim (st : ServerState) (playerId hitId : ℕ) (s : PlayerState)
    (rx rz : ℚ) : ServerState × List Out :=
  let respawned : PlayerState :=
    { s with health := 100, x := (rx - 0.5) * 20, z := (rz - 0.5) * 20, y := 1.6 }
  let clients' :=
    mapUpdate
      (mapUpdate st.clients playerId (fun c => { c with kills := c.kills + 1 }))
      hitId (fun v => { v with deaths := v.deaths + 1, state := some respawned })
  (⟨clients', st.nextId⟩,
    broadcast clients' (.playerKilled playerId hitId) ++
      broadcast clients' (.update hitId (some respawned)))

/-- The damage-application half of the `shoot` case once `hitId` is a
truthy id: `victim.state.health -= 25`, then the kill branch when the
resulting health is ≤ 0. When the victim's state is the empty object
the health stays opaque (NaN in the source) and no kill triggers. -/
def applyHit (st : ServerState) (playerId hitId : ℕ) (rx rz : ℚ) :
    ServerState × List Out :=
  match mapGet st.clients hitId with
  | none => (st, [])
  | some victim =>
    match victim.state with
    | none => (st, [])
    | some s =>
      let s1 := { s with health := s.health - 25 }
      if s1.health ≤ 0 then killVictim st playerId hitId s1 rx rz
      else
        (⟨mapUpdate st.clients hitId (fun v => { v with state := some s1 }),
          st.nextId⟩, [])

/-- The dispatcher `handleMessage` for a text frame whose payload parsed as `msg`,
sent by connection `playerId`. `rx`, `rz` feed the two `Math.random()`
calls of the respawn (unused outside the kill branch). -/
def handleMessage (st : ServerState) (playerId : ℕ) (msg : ClientMsg)
    (rx rz : ℚ) : ServerState × List Out :=
  match msg with
  | .init name state =>
    let clients1 :=
      mapUpdate st.clients playerId (fun c => { c with name := name, state := state })
    let joins := broadcast clients1 (.playerJoined playerId name state none)
    let catchUps :=
      (clients1.filter (fun e => e.1 ≠ playerId ∧ e.2.name ≠ "")).map
        (fun e => (playerId,
          ServerMsg.playerJoined e.1 e.2.name e.2.state (some (e.2.kills, e.2.deaths))))
    (⟨clients1, st.nextId⟩, joins ++ catchUps)
  | .update state =>
    let clients1 := mapUpdate st.clients playerId (fun c => { c with state := state })
    (⟨clients1, st.nextId⟩, broadcastExcept clients1 playerId (.update playerId state))
  | .shoot origin direction =>
    match findHit st.clients playerId origin direction with
    | none => (st, [])
    | some hitId =>
      -- `if (hitId)` in the source: the id 0 is falsy in JS, so a
      -- victim with id 0 would be dropped here (ids start at 1).
      if hitId = 0 then (st, [])
      else applyHit st playerId hitId rx rz
  | .unknown => (st, [])

/-! ## Map and broadcast lemmas -/

theorem mapGet_mapUpdate_self (m : ClientMap) (k : ℕ) (f : Client → Client) :
    mapGet (mapUpdate m k f) k = (mapGet m k).map f := by
  induction m with
  | nil => rfl
  | cons e rest ih =>
    obtain ⟨k', v⟩ := e
    by_cases h : k' = k
    · subst h
      rw [mapUpdate, if_pos rfl]
      simp [mapGet]
    · rw [mapUpdate, if_neg h]
      simpa [mapGet, h] using ih

theorem mapGet_mapUpdate_ne (m : ClientMap) (k : ℕ) (f : Client → Client)
    (j : ℕ) (h : j ≠ k) : mapGet (mapUpdate m k f) j = mapGet m j := by
  induction m with
  | nil => rfl
  | cons e rest ih =>
    obtain ⟨k', v⟩ := e
    by_cases hk : k' = k
    · subst hk
      rw [mapUpdate, if_pos rfl]
      simp [mapGet, Ne.symm h, ih]
    · rw [mapUpdate, if_neg hk]
      by_cases hj : k' = j
      · subst hj
        simp [mapGet]
      · simpa [mapGet, hj] using ih

theorem mapUpdate_keys (m : ClientMap) (k : ℕ) (f : Client → Client) :
    (mapUpdate m k f).map Prod.fst = m.map Prod.fst := by
  induction m with
  | nil => rfl
  | cons e rest ih =>
    obtain ⟨k', v⟩ := e
    by_cases h : k' = k
    · subst h
      rw [mapUpdate, if_pos rfl]
      simpa using ih
    · rw [mapUpdate, if_neg h]
      simpa using ih

theorem mem_broadcast_of_key {m : ClientMap} {i : ℕ} (msg : ServerMsg)
    (h : i ∈ m.map Prod.fst) : (i, msg) ∈ broadcast m msg := by
  unfold broadcast
  obtain ⟨e, he, hfst⟩ := List.mem_map.mp h
  exact List.mem_map.mpr ⟨e, he, by simp [hfst]⟩

/-! ## A concrete two-player scenario, used by witnesses -/

/-- The shooter's reported state in the concrete duel scenario. -/
def sShooter : PlayerState := ⟨0, 1.6, 0, 0, 0, 100⟩

/-- The target's reported state in the concrete duel scenario: standing
on the shooter's aim ray at distance 10. -/
def sTarget : PlayerState := ⟨0, 0, 10, 0, 0, 100⟩

/-- The shooter's registry entry in the duel scenario. -/
def cShooter : Client := ⟨"alice", some sShooter, 0, 0⟩

/-- The target's registry entry in the duel scenario. -/
def cTarget : Client := ⟨"bob", some sTarget, 0, 0⟩

/-- A server with the two duel players registered and initialized. -/
def stDuel : ServerState := ⟨[(1, cShooter), (2, cTarget)], 3⟩

/-! ## C4: hit-candidate geometry -/

/-- The ray projection as the specification words it:
dot(P.pos − O, D). -/
def specProj (o d pos : Vec3) : ℚ :=
  (pos.x - o.x) * d.x + (pos.y - o.y) * d.y + (pos.z - o.z) * d.z

/-- The hit-candidate predicate as the specification words it: the
projection lies in [0, 50] and the squared distance from P.pos to the
closest ray point C = O + proj·D is strictly below 0.6². Stated from
the claim, to be compared with the code-side test `isHit`. -/
def specHitCandidate (o d pos : Vec3) : Prop :=
  0 ≤ specProj o d pos ∧ specProj o d pos ≤ 50 ∧
    (pos.x - (o.x + specProj o d pos * d.x)) ^ 2 +
      (pos.y - (o.y + specProj o d pos * d.y)) ^ 2 +
      (pos.z - (o.z + specProj o d pos * d.z)) ^ 2 < (0.6 : ℚ) ^ 2

/-- C4: a player with known state is a hit candidate for a shoot ray
iff proj = dot(P.pos − O, D) lies in [0, 50] and the squared distance
from P.pos to C = O + proj·D is strictly below 0.6²; concretely, from
origin (0,0,0) along (0,0,1) a target at (0,0,10) is a candidate and a
target at (0.7,0,10) is not. -/
theorem hit_candidate_geometry :
    (∀ (o d : Vec3) (s : PlayerState),
      isHit o d s = true ↔ specHitCandidate o d ⟨s.x, s.y, s.z⟩) ∧
    isHit ⟨0, 0, 0⟩ ⟨0, 0, 1⟩ ⟨0, 0, 10, 0, 0, 100⟩ = true ∧
    isHit ⟨0, 0, 0⟩ ⟨0, 0, 1⟩ ⟨0.7, 0, 10, 0, 0, 100⟩ = false := by
  refine ⟨fun o d s => ?_, by norm_num [isHit], by norm_num [isHit]⟩
  have epow : ((0.6 : ℚ)) ^ 2 = 0.6 * 0.6 := by norm_num
  simp only [isHit, specHitCandidate, specProj, epow]
  split_ifs with h
  · simp only [Bool.false_eq_true, false_iff]
    rintro ⟨h1, h2, h3⟩
    rcases h with h | h
    · exact absurd h1 (not_le.mpr h)
    · exact absurd h2 (not_le.mpr h)
  · push_neg at h
    simp only [decide_eq_true_eq]
    constructor
    · intro hd
      exact ⟨h.1, h.2, hd⟩
    · intro hc
      exact hc.2.2

/-! ## C5: first-match hit resolution, shooter excluded -/

theorem findHit_eq_findFirst (m : ClientMap) (p : ℕ) (o d : Vec3) :
    findHit m p o d =
      Option.map Prod.fst
        (m.find? (fun e => decide (e.1 ≠ p) && clientHit o d e.2)) := by
  induction m with
  | nil => rfl
  | cons e rest ih =>
    obtain ⟨i, c⟩ := e
    by_cases h : i = p
    · rw [List.find?_cons_of_neg _ (by simp [h])]
      simpa [findHit, h] using ih
    · by_cases h2 : clientHit o d c
      · rw [List.find?_cons_of_pos _ (by simp [h, h2])]
        simp [findHit, h, h2]
      · rw [List.find?_cons_of_neg _ (by simp [h2])]
        simpa [findHit, h, h2] using ih

theorem findHit_ne {m : ClientMap} {p : ℕ} {o d : Vec3} {i : ℕ}
    (hi : findHit m p o d = some i) : i ≠ p := by
  rw [findHit_eq_findFirst] at hi
  obtain ⟨e, he, hfst⟩ := Option.map_eq_some'.mp hi
  have := List.find?_some he
  simp only [Bool.and_eq_true, decide_eq_true_eq] at this
  exact hfst ▸ this.1

/-- C5: hit resolution never selects the shooter, selects the first
client in registry iteration order passing the hit test, stops at that
first match, and yields at most one victim (an `Option`-valued
result). -/
theorem shoot_first_candidate :
    (∀ (m : ClientMap) (p : ℕ) (o d : Vec3),
      findHit m p o d =
        Option.map Prod.fst
          (m.find? (fun e => decide (e.1 ≠ p) && clientHit o d e.2))) ∧
    (∀ (m : ClientMap) (p : ℕ) (o d : Vec3) (i : ℕ),
      findHit m p o d = some i → i ≠ p) :=
  ⟨findHit_eq_findFirst, fun _ _ _ _ _ hi => findHit_ne hi⟩

/-- Witness for C5 at the concrete duel scenario: the target with id 2
is selected and is not the shooter. -/
theorem findHit_stDuel :
    findHit stDuel.clients 1 ⟨0, 0, 0⟩ ⟨0, 0, 1⟩ = some 2 := by
  norm_num [stDuel, cShooter, cTarget, sTarget, findHit, clientHit, isHit]

theorem shoot_first_candidate_witness :
    findHit stDuel.clients 1 ⟨0, 0, 0⟩ ⟨0, 0, 1⟩ = some 2 ∧ (2 : ℕ) ≠ 1 :=
  ⟨findHit_stDuel, shoot_first_candidate.2 stDuel.clients 1 ⟨0, 0, 0⟩ ⟨0, 0, 1⟩ 2 findHit_stDuel⟩

/-! ## C7: non-lethal hits are silent and touch only the victim's health -/

theorem mapGet_mem {m : ClientMap} {k : ℕ} {c : Client}
    (h : mapGet m k = some c) : (k, c) ∈ m := by
  induction m with
  | nil => exact absurd h (by simp [mapGet])
  | cons e rest ih =>
    obtain ⟨k', v⟩ := e
    by_cases hk : k' = k
    · subst hk
      rw [mapGet, if_pos rfl] at h
      exact Option.some_inj.mp h ▸ List.mem_cons_self _ _
    · rw [mapGet, if_neg hk] at h
      exact List.mem_cons_of_mem _ (ih h)

/-- C7: when a hit leaves the victim with health > 0, the server sends
no message, and the only state change is the victim's health field:
the registry keys, every other player's entry, and every other field of
the victim are unchanged. -/
theorem shoot_partial_damage {st : ServerState} {p v : ℕ} {o d : Vec3} {rx rz : ℚ}
    {victim : Client} {s : PlayerState}
    (hfind : findHit st.clients p o d = some v) (hv0 : v ≠ 0)
    (hget : mapGet st.clients v = some victim)
    (hstate : victim.state = some s) (halive : 0 < s.health - 25) :
    (handleMessage st p (.shoot o d) rx rz).2 = [] ∧
    (handleMessage st p (.shoot o d) rx rz).1.nextId = st.nextId ∧
    (handleMessage st p (.shoot o d) rx rz).1.clients.map Prod.fst =
      st.clients.map Prod.fst ∧
    mapGet (handleMessage st p (.shoot o d) rx rz).1.clients v =
      some { victim with state := some { s with health := s.health - 25 } } ∧
    (∀ j, j ≠ v →
      mapGet (handleMessage st p (.shoot o d) rx rz).1.clients j =
        mapGet st.clients j) := by
  have hnk : ¬ ((s.health - 25 : ℚ) ≤ 0) := by linarith
  have hm : handleMessage st p (.shoot o d) rx rz =
      (⟨mapUpdate st.clients v
          (fun c => { c with state := some { s with health := s.health - 25 } }),
        st.nextId⟩, []) := by
    simp only [handleMessage, hfind, if_neg hv0, applyHit, hget, hstate, hnk,
      if_false, if_neg]
  rw [hm]
  refine ⟨rfl, rfl, mapUpdate_keys _ _ _, ?_, fun j hj => mapGet_mapUpdate_ne _ _ _ _ hj⟩
  rw [mapGet_mapUpdate_self, hget]
  rfl

/-- Witness for C7 at the duel scenario: the target at full health
takes 25 damage and the server sends nothing. -/
theorem shoot_partial_damage_witness :
    findHit stDuel.clients 1 ⟨0, 0, 0⟩ ⟨0, 0, 1⟩ = some 2 ∧ (2 : ℕ) ≠ 0 ∧
    mapGet stDuel.clients 2 = some cTarget ∧ cTarget.state = some sTarget ∧
    0 < sTarget.health - 25 ∧
    (handleMessage stDuel 1 (.shoot ⟨0, 0, 0⟩ ⟨0, 0, 1⟩) 0 0).2 = [] := by
  have hget : mapGet stDuel.clients 2 = some cTarget := by
    simp [stDuel, mapGet]
  have halive : (0 : ℚ) < sTarget.health - 25 := by norm_num [sTarget]
  exact ⟨findHit_stDuel, by norm_num, hget, rfl, halive,
    (shoot_partial_damage findHit_stDuel (by norm_num) hget rfl halive).1⟩

/-! ## C3: the health range invariant -/

/-- Whether a client's known health lies in the range 0–100 (vacuously
true while the state is still the registration placeholder). -/
def healthOK (c : Client) : Bool :=
  match c.state with
  | none => true
  | some s => decide (0 ≤ s.health ∧ s.health ≤ 100)

/-- The claimed invariant: every registered client's known health lies
in 0–100. -/
def healthInv (m : ClientMap) : Prop := ∀ e ∈ m, healthOK e.2 = true

/-- A client-submitted state carrying a negative health. -/
def sBad : PlayerState := ⟨0, 1.6, 0, 0, 0, -5⟩

/-- Counterexample to C3: the `update` handler stores the
client-submitted state wholesale, so from a state satisfying the 0–100
health invariant a single `update` message carrying health −5 produces
a state violating it. -/
theorem health_invariant_cex :
    healthInv stDuel.clients ∧
    ¬ healthInv (handleMessage stDuel 2 (.update (some sBad)) 0 0).1.clients := by
  constructor
  · intro e he
    simp only [stDuel, List.mem_cons, List.not_mem_nil, or_false] at he
    rcases he with h | h <;>
      simp [h, healthOK, cShooter, cTarget, sShooter, sTarget]
  · intro hinv
    have h2 : (2, { cTarget with state := some sBad }) ∈
        (handleMessage stDuel 2 (.update (some sBad)) 0 0).1.clients := by
      simp [handleMessage, stDuel, mapUpdate, cShooter, cTarget]
    have := hinv _ h2
    norm_num [healthOK, sBad] at this

theorem healthInv_mapUpdate {m : ClientMap} {k : ℕ} {f : Client → Client}
    (hinv : healthInv m) (hf : ∀ c, healthOK c = true → healthOK (f c) = true) :
    healthInv (mapUpdate m k f) := by
  induction m with
  | nil => intro e he; exact absurd he (by simp [mapUpdate])
  | cons e rest ih =>
    obtain ⟨k', v⟩ := e
    have hv := hinv (k', v) (List.mem_cons_self _ _)
    have hrest : healthInv rest := fun e' he' => hinv e' (List.mem_cons_of_mem _ he')
    intro e' he'
    rw [mapUpdate] at he'
    rcases List.mem_cons.mp he' with h | h
    · by_cases hk : k' = k
      · rw [if_pos hk] at h
        exact h ▸ hf v hv
      · rw [if_neg hk] at h
        exact h ▸ hv
    · exact ih hrest e' h

/-- C3 amended: the `shoot` handler preserves the 0–100 health range
(the floor at 0 triggers a reset to 100), while the `update` handler
stores the client-submitted state verbatim and preserves the range only
when the submitted health itself lies in 0–100. -/
theorem health_range_amended :
    (∀ (st : ServerState) (p : ℕ) (o d : Vec3) (rx rz : ℚ),
      healthInv st.clients →
      healthInv (handleMessage st p (.shoot o d) rx rz).1.clients) ∧
    (∀ (st : ServerState) (p : ℕ) (s : Option PlayerState) (rx rz : ℚ),
      healthInv st.clients →
      (∀ ps, s = some ps → 0 ≤ ps.health ∧ ps.health ≤ 100) →
      healthInv (handleMessage st p (.update s) rx rz).1.clients) := by
  constructor
  · intro st p o d rx rz hinv
    rcases hfind : findHit st.clients p o d with _ | v
    · simpa [handleMessage, hfind] using hinv
    · by_cases hv0 : v = 0
      · simpa [handleMessage, hfind, hv0] using hinv
      · rcases hget : mapGet st.clients v with _ | victim
        · simpa [handleMessage, hfind, hv0, applyHit, hget] using hinv
        · rcases hstate : victim.state with _ | s
          · simpa [handleMessage, hfind, hv0, applyHit, hget, hstate] using hinv
          · have hsrange : 0 ≤ s.health ∧ s.health ≤ 100 := by
              have := hinv _ (mapGet_mem hget)
              simpa [healthOK, hstate] using this
            by_cases hkill : (s.health - 25 : ℚ) ≤ 0
            · simp only [handleMessage, hfind, if_neg hv0, applyHit, hget, hstate,
                if_pos hkill, killVictim]
              apply healthInv_mapUpdate (healthInv_mapUpdate hinv ?_) ?_
              · intro c hc
                simpa [healthOK] using hc
              · intro c _
                simp [healthOK]
            · simp only [handleMessage, hfind, if_neg hv0, applyHit, hget, hstate,
                if_neg hkill]
              apply healthInv_mapUpdate hinv
              intro c _
              simp only [healthOK, decide_eq_true_eq]
              constructor <;> [linarith; linarith [hsrange.2]]
  · intro st p s rx rz hinv hs
    simp only [handleMessage]
    apply healthInv_mapUpdate hinv
    intro c _
    rcases s with _ | ps
    · simp [healthOK]
    · have := hs ps rfl
      simp only [healthOK, decide_eq_true_eq]
      exact this

/-- Witness for C3's amended statement at the duel scenario. -/
theorem health_range_amended_witness :
    healthInv stDuel.clients ∧
    healthInv (handleMessage stDuel 1 (.shoot ⟨0, 0, 0⟩ ⟨0, 0, 1⟩) 0 0).1.clients := by
  have hinv : healthInv stDuel.clients := by
    intro e he
    simp only [stDuel, List.mem_cons, List.not_mem_nil, or_false] at he
    rcases he with h | h <;>
      simp [h, healthOK, cShooter, cTarget, sShooter, sTarget]
  exact ⟨hinv, health_range_amended.1 stDuel 1 ⟨0, 0, 0⟩ ⟨0, 0, 1⟩ 0 0 hinv⟩

/-! ## C6: the kill branch -/

/-- Recognizer for `playerKilled` transmissions. -/
def isKilledMsg : ServerMsg → Bool := fun m =>
  match m with
  | .playerKilled _ _ => true
  | _ => false

/-- One shot of the duel scenario: player 1 shoots from (0,0,0) along
(0,0,1), both respawn draws fixed at 1/2. -/
def shotOnce (st : ServerState) : ServerState × List Out :=
  handleMessage st 1 (.shoot ⟨0, 0, 0⟩ ⟨0, 0, 1⟩) (1/2) (1/2)

/-- A run of `n` consecutive duel shots starting from `stDuel`, accumulating all
transmissions. -/
def shots : ℕ → ServerState × List Out
  | 0 => (stDuel, [])
  | n + 1 =>
    ((shotOnce (shots n).1).1, (shots n).2 ++ (shotOnce (shots n).1).2)

theorem duel_first_three_silent : (shots 3).2 = [] := by
  norm_num [shots, shotOnce, handleMessage, findHit, clientHit, isHit, applyHit,
    killVictim, mapGet, mapUpdate, broadcast, stDuel, cShooter, cTarget, sShooter,
    sTarget]

theorem duel_fourth_shot_kills :
    ((shots 4).2.filter (fun t => t.1 = 1 && isKilledMsg t.2)).length = 1 ∧
    mapGet (shots 4).1.clients 1 = some { cShooter with kills := 1 } ∧
    mapGet (shots 4).1.clients 2 = some ⟨"bob", some ⟨0, 1.6, 0, 0, 0, 100⟩, 0, 1⟩ := by
  norm_num [shots, shotOnce, handleMessage, findHit, clientHit, isHit, applyHit,
    killVictim, mapGet, mapUpdate, broadcast, stDuel, cShooter, cTarget, sShooter,
    sTarget, isKilledMsg]

/-- C6: a hit that brings the victim's health to ≤ 0 increments the
shooter's kills and the victim's deaths by exactly 1, resets the
victim's health to 100, repositions the victim with x,z ∈ [−10,10] and
y = 1.6, and broadcasts `playerKilled` followed by the respawn
`update`; four consecutive 25-damage duel shots on a full-health victim
stay silent for three shots and produce exactly one `playerKilled` per
connection, one kill, one death and a final health of 100. -/
theorem shoot_kill {st : ServerState} {p v : ℕ} {o d : Vec3} {rx rz : ℚ}
    {shooter victim : Client} {s : PlayerState}
    (hfind : findHit st.clients p o d = some v) (hv0 : v ≠ 0)
    (hgetp : mapGet st.clients p = some shooter)
    (hget : mapGet st.clients v = some victim)
    (hstate : victim.state = some s)
    (hkill : s.health - 25 ≤ 0)
    (hrx0 : 0 ≤ rx) (hrx1 : rx < 1) (hrz0 : 0 ≤ rz) (hrz1 : rz < 1) :
    mapGet (handleMessage st p (.shoot o d) rx rz).1.clients p =
      some { shooter with kills := shooter.kills + 1 } ∧
    mapGet (handleMessage st p (.shoot o d) rx rz).1.clients v =
      some { victim with deaths := victim.deaths + 1, state := some ⟨(rx - 0.5) * 20, 1.6, (rz - 0.5) * 20, s.yaw, s.pitch, 100⟩ } ∧
    (-10 ≤ (rx - 0.5) * 20 ∧ (rx - 0.5) * 20 ≤ 10) ∧
    (-10 ≤ (rz - 0.5) * 20 ∧ (rz - 0.5) * 20 ≤ 10) ∧
    (handleMessage st p (.shoot o d) rx rz).2 =
      broadcast (handleMessage st p (.shoot o d) rx rz).1.clients
          (.playerKilled p v) ++
        broadcast (handleMessage st p (.shoot o d) rx rz).1.clients
          (.update v (some ⟨(rx - 0.5) * 20, 1.6, (rz - 0.5) * 20, s.yaw, s.pitch, 100⟩)) ∧
    ((shots 3).2 = [] ∧
      ((shots 4).2.filter (fun t => t.1 = 1 && isKilledMsg t.2)).length = 1 ∧
      mapGet (shots 4).1.clients 1 = some { cShooter with kills := 1 } ∧
      mapGet (shots 4).1.clients 2 = some ⟨"bob", some ⟨0, 1.6, 0, 0, 0, 100⟩, 0, 1⟩) := by
  have hvp : v ≠ p := findHit_ne hfind
  have hm : handleMessage st p (.shoot o d) rx rz =
      killVictim st p v { s with health := s.health - 25 } rx rz := by
    simp only [handleMessage, hfind, if_neg hv0, applyHit, hget, hstate]
    rw [if_pos (by simpa using hkill)]
  have hresp :
      ({ { s with health := s.health - 25 } with health := 100, x := (rx - 0.5) * 20, z := (rz - 0.5) * 20, y := 1.6 } : PlayerState) =
      ⟨(rx - 0.5) * 20, 1.6, (rz - 0.5) * 20, s.yaw, s.pitch, 100⟩ := rfl
  refine ⟨?_, ?_, ⟨by linarith, by linarith⟩, ⟨by linarith, by linarith⟩, ?_,
    duel_first_three_silent, duel_fourth_shot_kills⟩
  · rw [hm]
    simp only [killVictim]
    rw [mapGet_mapUpdate_ne _ _ _ _ (Ne.symm hvp), mapGet_mapUpdate_self, hgetp]
    rfl
  · rw [hm]
    simp only [killVictim]
    rw [mapGet_mapUpdate_self, mapGet_mapUpdate_ne _ _ _ _ hvp, hget]
    simp [hresp]
  · rw [hm]
    simp only [killVictim, hresp]

/-- A duel scenario with the target already down to 25 health. -/
def cTargetLow : Client := ⟨"bob", some ⟨0, 0, 10, 0, 0, 25⟩, 0, 0⟩

/-- The low-health duel server used to witness the kill branch. -/
def stDuelLow : ServerState := ⟨[(1, cShooter), (2, cTargetLow)], 3⟩

/-- Witness for C6 at the low-health duel: the fourth-hit kill. -/
theorem shoot_kill_witness :
    findHit stDuelLow.clients 1 ⟨0, 0, 0⟩ ⟨0, 0, 1⟩ = some 2 ∧
    mapGet (handleMessage stDuelLow 1 (.shoot ⟨0, 0, 0⟩ ⟨0, 0, 1⟩) (1/2) (1/2)).1.clients 1 =
      some { cShooter with kills := cShooter.kills + 1 } := by
  have hfind : findHit stDuelLow.clients 1 ⟨0, 0, 0⟩ ⟨0, 0, 1⟩ = some 2 := by
    norm_num [stDuelLow, cShooter, cTargetLow, findHit, clientHit, isHit]
  have hgetp : mapGet stDuelLow.clients 1 = some cShooter := by
    simp [stDuelLow, mapGet]
  have hget : mapGet stDuelLow.clients 2 = some cTargetLow := by
    simp [stDuelLow, mapGet]
  have hkill : ((⟨0, 0, 10, 0, 0, 25⟩ : PlayerState).health - 25 : ℚ) ≤ 0 := by
    norm_num
  exact ⟨hfind,
    (shoot_kill hfind (by norm_num) hgetp hget rfl hkill (by norm_num) (by norm_num)
      (by norm_num) (by norm_num)).1⟩

/-! ## C1: init broadcast and catch-up snapshot -/

/-- Recognizer for catch-up `playerJoined` transmissions: those
carrying the optional kills/deaths counters. -/
def isCatchUp : Out → Bool := fun t =>
  match t.2 with
  | .playerJoined _ _ _ (some _) => true
  | _ => false

/-- The state of a third player joining the duel. -/
def sNew : PlayerState := ⟨1, 1.6, 2, 0, 0, 100⟩

/-- A server with two initialized players and a freshly connected,
not-yet-initialized third. -/
def stTrio : ServerState := ⟨[(1, cShooter), (2, cTarget), (3, freshClient)], 4⟩

/-- Counterexample to C1: the join `playerJoined` goes through
`broadcast`, which iterates every registered connection — the sender
itself receives its own join broadcast. -/
theorem init_broadcast_cex :
    (3, ServerMsg.playerJoined 3 "carol" (some sNew) none) ∈
      (handleMessage stTrio 3 (.init "carol" (some sNew)) 0 0).2 := by
  simp [handleMessage, stTrio, mapUpdate, broadcast, freshClient, cShooter, cTarget]

theorem filter_broadcast_of_neg (m : ClientMap) (msg : ServerMsg) (q : Out → Bool)
    (h : ∀ i, q (i, msg) = false) : (broadcast m msg).filter q = [] := by
  induction m with
  | nil => rfl
  | cons e rest ih =>
    have hq : ¬ q (e.1, msg) = true := by simp [h e.1]
    rw [broadcast, List.map_cons, List.filter_cons_of_neg hq]
    simpa [broadcast] using ih

theorem filter_mapUpdate_self (m : ClientMap) (p : ℕ) (f : Client → Client) :
    (mapUpdate m p f).filter (fun e => decide (e.1 ≠ p ∧ e.2.name ≠ "")) =
      m.filter (fun e => decide (e.1 ≠ p ∧ e.2.name ≠ "")) := by
  induction m with
  | nil => rfl
  | cons e rest ih =>
    obtain ⟨k', v⟩ := e
    by_cases h : k' = p
    · subst h
      rw [mapUpdate, if_pos rfl]
      rw [List.filter_cons_of_neg (by simp), List.filter_cons_of_neg (by simp)]
      exact ih
    · rw [mapUpdate, if_neg h]
      simp only [List.filter_cons]
      rw [ih]

theorem duel_catchup_count :
    ((handleMessage stTrio 3 (.init "carol" (some sNew)) 0 0).2.filter isCatchUp).length
      = 2 := by
  simp [handleMessage, stTrio, mapUpdate, broadcast, freshClient, cShooter, cTarget,
    isCatchUp]

/-- C1 amended: on `init`, the join `playerJoined` is broadcast to
every registered connection, the sender included; the catch-up
`playerJoined` messages (the ones carrying kills/deaths) all go to the
sender, one per already-initialized other player in registry order; a
client joining after two initialized players receives exactly two
catch-up messages. -/
theorem init_broadcast_and_snapshot :
    (∀ (st : ServerState) (p : ℕ) (name : String) (s : Option PlayerState) (rx rz : ℚ)
      (i : ℕ), i ∈ st.clients.map Prod.fst →
      (i, ServerMsg.playerJoined p name s none) ∈
        (handleMessage st p (.init name s) rx rz).2) ∧
    (∀ (st : ServerState) (p : ℕ) (name : String) (s : Option PlayerState) (rx rz : ℚ),
      (handleMessage st p (.init name s) rx rz).2.filter isCatchUp =
        (st.clients.filter (fun e => decide (e.1 ≠ p ∧ e.2.name ≠ ""))).map
          (fun e => (p, ServerMsg.playerJoined e.1 e.2.name e.2.state
            (some (e.2.kills, e.2.deaths))))) ∧
    ((handleMessage stTrio 3 (.init "carol" (some sNew)) 0 0).2.filter isCatchUp).length
      = 2 := by
  refine ⟨?_, ?_, duel_catchup_count⟩
  · intro st p name s rx rz i hi
    simp only [handleMessage]
    apply List.mem_append_left
    exact mem_broadcast_of_key _ ((mapUpdate_keys st.clients p _).symm ▸ hi)
  · intro st p name s rx rz
    simp only [handleMessage, List.filter_append]
    rw [filter_broadcast_of_neg _ _ _ (fun i => by simp [isCatchUp])]
    rw [List.nil_append]
    rw [List.filter_map, filter_mapUpdate_self]
    congr 1
    apply List.filter_eq_self.mpr
    intro e _
    simp [isCatchUp, Function.comp]

/-- Witness for C1's amended statement: the sender of `init` is among
the recipients of its own join broadcast in the trio scenario. -/
theorem init_broadcast_and_snapshot_witness :
    (3 : ℕ) ∈ stTrio.clients.map Prod.fst ∧
    (3, ServerMsg.playerJoined 3 "carol" (some sNew) none) ∈
      (handleMessage stTrio 3 (.init "carol" (some sNew)) 0 0).2 :=
  ⟨by simp [stTrio], init_broadcast_and_snapshot.1 stTrio 3 "carol" (some sNew) 0 0 3
    (by simp [stTrio])⟩

/-! ## C2: disconnect cleanup -/

/-- Counterexample to C2: a connection that was registered at handshake
but never sent `init` still triggers a `playerLeft` broadcast when it
closes — `removeClient` broadcasts unconditionally. -/
theorem remove_uninit_cex :
    (removeClient ⟨[(1, freshClient), (2, cTarget)], 3⟩ 1).2 =
      [(2, ServerMsg.playerLeft 1)] := by
  simp [removeClient, mapGet, mapDelete, broadcast, freshClient]

/-- C2 amended: on close of a registered connection the registry entry
is removed and `playerLeft` is broadcast to the remaining connections
regardless of whether the connection ever completed `init`; closing an
unregistered id does nothing. -/
theorem remove_client_behaviour :
    (∀ (st : ServerState) (i : ℕ) (c : Client), mapGet st.clients i = some c →
      (removeClient st i).1.clients = mapDelete st.clients i ∧
      (removeClient st i).2 = broadcast (mapDelete st.clients i) (.playerLeft i) ∧
      ∀ j ∈ (removeClient st i).1.clients.map Prod.fst, j ≠ i) ∧
    (∀ (st : ServerState) (i : ℕ), mapGet st.clients i = none →
      removeClient st i = (st, [])) := by
  constructor
  · intro st i c hget
    refine ⟨by simp [removeClient, hget], by simp [removeClient, hget], ?_⟩
    intro j hj
    simp only [removeClient, hget] at hj
    obtain ⟨e, he, hfst⟩ := List.mem_map.mp hj
    have := (List.mem_filter.mp he).2
    simpa [hfst] using this
  · intro st i h
    simp [removeClient, h]

/-- Witness for C2's amended statement: removing the never-initialized
client 1 leaves only client 2 and broadcasts `playerLeft 1` to it. -/
theorem remove_client_behaviour_witness :
    mapGet (⟨[(1, freshClient), (2, cTarget)], 3⟩ : ServerState).clients 1 =
      some freshClient ∧
    (removeClient ⟨[(1, freshClient), (2, cTarget)], 3⟩ 1).2 =
      broadcast (mapDelete [(1, freshClient), (2, cTarget)] 1) (.playerLeft 1) :=
  ⟨by simp [mapGet], (remove_client_behaviour.1 ⟨[(1, freshClient), (2, cTarget)], 3⟩ 1
    freshClient (by simp [mapGet])).2.1⟩

/-! ## C10: empty display names and the snapshot loop -/

theorem mem_mapUpdate_of_ne {m : ClientMap} {k : ℕ} {f : Client → Client}
    {e : ℕ × Client} (he : e ∈ mapUpdate m k f) (hne : e.1 ≠ k) : e ∈ m := by
  induction m with
  | nil => exact absurd he (by simp [mapUpdate])
  | cons e0 rest ih =>
    obtain ⟨k', v⟩ := e0
    rw [mapUpdate] at he
    rcases List.mem_cons.mp he with h | h
    · by_cases hk : k' = k
      · rw [if_pos hk] at h
        exact absurd (h ▸ hne) (by simp [hk])
      · rw [if_neg hk] at h
        exact h ▸ List.mem_cons_self _ _
    · exact List.mem_cons_of_mem _ (ih h)

theorem WF_mapGet_of_mem {m : ClientMap} {k : ℕ} {v : Client}
    (hwf : WFMap m) (hm : (k, v) ∈ m) : mapGet m k = some v := by
  induction m with
  | nil => exact absurd hm (by simp)
  | cons e rest ih =>
    obtain ⟨k', v'⟩ := e
    rcases List.mem_cons.mp hm with h | h
    · rw [Prod.mk.injEq] at h
      obtain ⟨h1, h2⟩ := h
      subst h1
      subst h2
      rw [mapGet, if_pos rfl]
    · have hk : k' ≠ k := by
        intro hkk
        subst hkk
        have : k' ∈ rest.map Prod.fst := List.mem_map.mpr ⟨(k', v), h, rfl⟩
        exact (List.nodup_cons.mp hwf).1 this
      rw [mapGet, if_neg hk]
      exact ih (List.nodup_cons.mp hwf).2 h

/-- C10: a player whose `init` carried the empty string as display
name still has its join broadcast to every connection, but every later
joining player's catch-up snapshot omits it (the snapshot loop skips
clients with a falsy stored name). -/
theorem empty_name_snapshot :
    (∀ (st : ServerState) (e : ℕ) (s : Option PlayerState) (rx rz : ℚ) (i : ℕ),
      i ∈ st.clients.map Prod.fst →
      (i, ServerMsg.playerJoined e "" s none) ∈
        (handleMessage st e (.init "" s) rx rz).2) ∧
    (∀ (st : ServerState) (q : ℕ) (nm : String) (s : Option PlayerState) (rx rz : ℚ)
      (i : ℕ) (c : Client), WFMap st.clients → mapGet st.clients i = some c →
      c.name = "" →
      ∀ t ∈ (handleMessage st q (.init nm s) rx rz).2,
        ∀ (n : String) (st' : Option PlayerState) (kd : ℕ × ℕ),
          t.2 = ServerMsg.playerJoined i n st' (some kd) → False) := by
  constructor
  · intro st e s rx rz i hi
    simp only [handleMessage]
    apply List.mem_append_left
    exact mem_broadcast_of_key _ ((mapUpdate_keys st.clients e _).symm ▸ hi)
  · intro st q nm s rx rz i c hwf hget hname t ht n st' kd ht2
    simp only [handleMessage] at ht
    rcases List.mem_append.mp ht with h | h
    · obtain ⟨e, _, hfst⟩ := List.mem_map.mp h
      rw [← hfst] at ht2
      exact Option.noConfusion (ServerMsg.playerJoined.injEq .. ▸ ht2).2.2.2
    · obtain ⟨e, he, hfst⟩ := List.mem_map.mp h
      obtain ⟨hmem, hpred⟩ := List.mem_filter.mp he
      simp only [decide_eq_true_eq] at hpred
      rw [← hfst] at ht2
      have hei : e.1 = i := (ServerMsg.playerJoined.injEq .. ▸ ht2).1
      by_cases hqi : q = i
      · exact hpred.1 (hei.trans hqi.symm)
      · have hmem' : e ∈ st.clients :=
          mem_mapUpdate_of_ne hmem (by rw [hei]; exact Ne.symm hqi)
        have : mapGet st.clients i = some e.2 := by
          have := WF_mapGet_of_mem hwf (show (e.1, e.2) ∈ st.clients from hmem')
          rwa [hei] at this
        rw [hget] at this
        exact hpred.2 (Option.some_inj.mp this ▸ hname)

/-- Witness for C10: the empty-named `init` of player 3 in the trio
scenario is still broadcast to player 1. -/
theorem empty_name_snapshot_witness :
    (1 : ℕ) ∈ stTrio.clients.map Prod.fst ∧
    (1, ServerMsg.playerJoined 3 "" (some sNew) none) ∈
      (handleMessage stTrio 3 (.init "" (some sNew)) 0 0).2 :=
  ⟨by simp [stTrio], empty_name_snapshot.1 stTrio 3 (some sNew) 0 0 1 (by simp [stTrio])⟩

/-! ## C8: frame round-trip -/

theorem xorMask_length (mask : List ℕ) (i : ℕ) (p : List ℕ) :
    (xorMask mask i p).length = p.length := by
  induction p generalizing i with
  | nil => rfl
  | cons b rest ih => simp [xorMask, ih]

theorem xorMask_xorMask (mask : List ℕ) (i : ℕ) (p : List ℕ) :
    xorMask mask i (xorMask mask i p) = p := by
  induction p generalizing i with
  | nil => rfl
  | cons b rest ih => simp [xorMask, ih, Nat.xor_cancel_right]

theorem land_127_of_lt {n : ℕ} (h : n < 128) : n &&& 127 = n := by
  have h2 := Nat.and_pow_two_sub_one_eq_mod n 7
  norm_num at h2
  omega

theorem land_127_add_128 {n : ℕ} (h : n < 128) : (n + 128) &&& 127 = n := by
  have h2 := Nat.and_pow_two_sub_one_eq_mod (n + 128) 7
  norm_num at h2
  omega

theorem land_128_add_128 {n : ℕ} (h : n < 128) : (n + 128) &&& 128 = 128 := by
  have h2 := Nat.and_two_pow (n + 128) 7
  rw [Nat.testBit_to_div_mod] at h2
  have h3 : (n + 128) / 2 ^ 7 % 2 = 1 := by omega
  rw [h3] at h2
  simpa using h2

theorem roundtrip_tier1 {p key : List ℕ} (hk : key.length = 4)
    (h : p.length < 126) :
    parseOne (maskFrame key (sendWSFrame p)) = some (1, p, 6 + p.length) ∧
    (maskFrame key (sendWSFrame p)).length = 6 + p.length := by
  have hframe : sendWSFrame p = 129 :: p.length :: p := by
    simp only [sendWSFrame]
    rw [if_pos h]
  have hlt : p.length < 128 := by omega
  have hmasked : maskFrame key (129 :: p.length :: p) =
      129 :: (p.length + 128) :: (key ++ xorMask key 0 p) := by
    simp only [maskFrame, land_127_of_lt hlt]
    rw [if_neg (by omega), if_neg (by omega)]
    simp
  rw [hframe, hmasked]
  have hlen : (129 :: (p.length + 128) :: (key ++ xorMask key 0 p)).length =
      6 + p.length := by
    simp [hk, xorMask_length]
    omega
  refine ⟨?_, hlen⟩
  have hgd1 : (129 :: (p.length + 128) :: (key ++ xorMask key 0 p)).getD 1 0 =
      p.length + 128 := rfl
  have hgd0 : (129 :: (p.length + 128) :: (key ++ xorMask key 0 p)).getD 0 0 =
      129 := rfl
  rw [parseOne, if_neg (by omega)]
  rw [hgd1, land_127_add_128 hlt]
  rw [parseLen, if_neg (by omega), if_neg (by omega)]
  rw [hgd0]
  dsimp only
  have hmaskbit : (p.length + 128) &&& 128 ≠ 0 := by
    rw [land_128_add_128 hlt]
    omega
  rw [if_pos hmaskbit, if_neg (by rw [hlen]; omega), if_neg (by rw [hlen]; omega)]
  have hslice4 : bufSlice (129 :: (p.length + 128) :: (key ++ xorMask key 0 p)) 2 4 =
      key := by
    simp only [bufSlice, List.drop_succ_cons, List.drop_zero]
    rw [← hk, List.take_left]
  have hslicep : bufSlice (129 :: (p.length + 128) :: (key ++ xorMask key 0 p))
      (2 + 4) p.length = xorMask key 0 p := by
    have hd : List.drop (2 + 4) (129 :: (p.length + 128) :: (key ++ xorMask key 0 p)) =
        List.drop 4 (key ++ xorMask key 0 p) := rfl
    rw [bufSlice, hd, ← hk, List.drop_left]
    conv_lhs => rw [← xorMask_length key 0 p]
    exact List.take_length _
  rw [hslice4, hslicep, xorMask_xorMask]
  have hop : (129 : ℕ) &&& 15 = 1 := by
    have h2 := Nat.and_pow_two_sub_one_eq_mod 129 4
    norm_num at h2
    exact h2
  rw [hop]

theorem roundtrip_tier2 {p key : List ℕ} (hk : key.length = 4)
    (h1 : ¬ p.length < 126) (h2 : p.length < 65536) :
    parseOne (maskFrame key (sendWSFrame p)) = some (1, p, 8 + p.length) ∧
    (maskFrame key (sendWSFrame p)).length = 8 + p.length := by
  have hframe : sendWSFrame p = 129 :: 126 :: (writeUInt16BE p.length ++ p) := by
    simp only [sendWSFrame]
    rw [if_neg h1, if_pos h2]
  have hmasked : maskFrame key (129 :: 126 :: (writeUInt16BE p.length ++ p)) =
      129 :: 254 :: (p.length / 2 ^ 8 % 256) :: (p.length % 256) ::
        (key ++ xorMask key 0 p) := rfl
  rw [hframe, hmasked]
  have hlen : (129 :: 254 :: (p.length / 2 ^ 8 % 256) :: (p.length % 256) ::
      (key ++ xorMask key 0 p)).length = 8 + p.length := by
    simp [hk, xorMask_length]
    omega
  refine ⟨?_, hlen⟩
  rw [parseOne, if_neg (by rw [hlen]; omega)]
  have hgd1 : (129 :: 254 :: (p.length / 2 ^ 8 % 256) :: (p.length % 256) ::
      (key ++ xorMask key 0 p)).getD 1 0 = 254 := rfl
  rw [hgd1, show (254 : ℕ) &&& 127 = 126 from rfl]
  rw [parseLen, if_pos rfl, if_neg (by rw [hlen]; omega)]
  have hr16 : readUInt16BE (129 :: 254 :: (p.length / 2 ^ 8 % 256) :: (p.length % 256) ::
      (key ++ xorMask key 0 p)) 2 = p.length := by
    show p.length / 2 ^ 8 % 256 * 256 + p.length % 256 = p.length
    omega
  rw [hr16]
  dsimp only
  rw [show (254 : ℕ) &&& 128 = 128 from rfl]
  rw [if_pos (show (128 : ℕ) ≠ 0 by norm_num)]
  rw [if_neg (by rw [hlen]; omega), if_neg (by rw [hlen]; omega)]
  have hslice4 : bufSlice (129 :: 254 :: (p.length / 2 ^ 8 % 256) :: (p.length % 256) ::
      (key ++ xorMask key 0 p)) 4 4 = key := by
    rw [bufSlice, show List.drop 4 (129 :: 254 :: (p.length / 2 ^ 8 % 256) ::
      (p.length % 256) :: (key ++ xorMask key 0 p)) = key ++ xorMask key 0 p from rfl,
      ← hk, List.take_left]
  have hslicep : bufSlice (129 :: 254 :: (p.length / 2 ^ 8 % 256) :: (p.length % 256) ::
      (key ++ xorMask key 0 p)) (4 + 4) p.length = xorMask key 0 p := by
    rw [bufSlice, show List.drop (4 + 4) (129 :: 254 :: (p.length / 2 ^ 8 % 256) ::
      (p.length % 256) :: (key ++ xorMask key 0 p)) =
      List.drop 4 (key ++ xorMask key 0 p) from rfl, ← hk, List.drop_left]
    conv_lhs => rw [← xorMask_length key 0 p]
    exact List.take_length _
  rw [hslice4, hslicep, xorMask_xorMask]
  have hgd0 : (129 :: 254 :: (p.length / 2 ^ 8 % 256) :: (p.length % 256) ::
      (key ++ xorMask key 0 p)).getD 0 0 = 129 := rfl
  rw [hgd0, show (129 : ℕ) &&& 15 = 1 from rfl]

theorem roundtrip_tier3 {p key : List ℕ} (hk : key.length = 4)
    (h1 : ¬ p.length < 126) (h2 : ¬ p.length < 65536) (h3 : p.length < 2 ^ 64) :
    parseOne (maskFrame key (sendWSFrame p)) = some (1, p, 14 + p.length) ∧
    (maskFrame key (sendWSFrame p)).length = 14 + p.length := by
  have hframe : sendWSFrame p = 129 :: 127 :: (writeUInt64BE p.length ++ p) := by
    simp only [sendWSFrame]
    rw [if_neg h1, if_neg h2]
  have hmasked : maskFrame key (129 :: 127 :: (writeUInt64BE p.length ++ p)) =
      129 :: 255 :: (p.length / 2 ^ 56 % 256) :: (p.length / 2 ^ 48 % 256) ::
        (p.length / 2 ^ 40 % 256) :: (p.length / 2 ^ 32 % 256) ::
        (p.length / 2 ^ 24 % 256) :: (p.length / 2 ^ 16 % 256) ::
        (p.length / 2 ^ 8 % 256) :: (p.length % 256) ::
        (key ++ xorMask key 0 p) := rfl
  rw [hframe, hmasked]
  have hlen : (129 :: 255 :: (p.length / 2 ^ 56 % 256) :: (p.length / 2 ^ 48 % 256) ::
      (p.length / 2 ^ 40 % 256) :: (p.length / 2 ^ 32 % 256) ::
      (p.length / 2 ^ 24 % 256) :: (p.length / 2 ^ 16 % 256) ::
      (p.length / 2 ^ 8 % 256) :: (p.length % 256) ::
      (key ++ xorMask key 0 p)).length = 14 + p.length := by
    simp [hk, xorMask_length]
    omega
  refine ⟨?_, hlen⟩
  rw [parseOne, if_neg (by rw [hlen]; omega)]
  have hgd1 : (129 :: 255 :: (p.length / 2 ^ 56 % 256) :: (p.length / 2 ^ 48 % 256) ::
      (p.length / 2 ^ 40 % 256) :: (p.length / 2 ^ 32 % 256) ::
      (p.length / 2 ^ 24 % 256) :: (p.length / 2 ^ 16 % 256) ::
      (p.length / 2 ^ 8 % 256) :: (p.length % 256) ::
      (key ++ xorMask key 0 p)).getD 1 0 = 255 := rfl
  rw [hgd1, show (255 : ℕ) &&& 127 = 127 from rfl]
  rw [parseLen, if_neg (by norm_num), if_pos rfl, if_neg (by rw [hlen]; omega)]
  have hr64 : readUInt32BE (129 :: 255 :: (p.length / 2 ^ 56 % 256) ::
      (p.length / 2 ^ 48 % 256) :: (p.length / 2 ^ 40 % 256) ::
      (p.length / 2 ^ 32 % 256) :: (p.length / 2 ^ 24 % 256) ::
      (p.length / 2 ^ 16 % 256) :: (p.length / 2 ^ 8 % 256) :: (p.length % 256) ::
      (key ++ xorMask key 0 p)) 2 * 2 ^ 32 +
      readUInt32BE (129 :: 255 :: (p.length / 2 ^ 56 % 256) ::
      (p.length / 2 ^ 48 % 256) :: (p.length / 2 ^ 40 % 256) ::
      (p.length / 2 ^ 32 % 256) :: (p.length / 2 ^ 24 % 256) ::
      (p.length / 2 ^ 16 % 256) :: (p.length / 2 ^ 8 % 256) :: (p.length % 256) ::
      (key ++ xorMask key 0 p)) 6 = p.length := by
    show (p.length / 2 ^ 56 % 256 * 2 ^ 24 + p.length / 2 ^ 48 % 256 * 2 ^ 16 +
        p.length / 2 ^ 40 % 256 * 2 ^ 8 + p.length / 2 ^ 32 % 256) * 2 ^ 32 +
      (p.length / 2 ^ 24 % 256 * 2 ^ 24 + p.length / 2 ^ 16 % 256 * 2 ^ 16 +
        p.length / 2 ^ 8 % 256 * 2 ^ 8 + p.length % 256) = p.length
    omega
  rw [hr64]
  dsimp only
  rw [show (255 : ℕ) &&& 128 = 128 from rfl]
  rw [if_pos (show (128 : ℕ) ≠ 0 by norm_num)]
  rw [if_neg (by rw [hlen]; omega), if_neg (by rw [hlen]; omega)]
  have hslice4 : bufSlice (129 :: 255 :: (p.length / 2 ^ 56 % 256) ::
      (p.length / 2 ^ 48 % 256) :: (p.length / 2 ^ 40 % 256) ::
      (p.length / 2 ^ 32 % 256) :: (p.length / 2 ^ 24 % 256) ::
      (p.length / 2 ^ 16 % 256) :: (p.length / 2 ^ 8 % 256) :: (p.length % 256) ::
      (key ++ xorMask key 0 p)) 10 4 = key := by
    rw [bufSlice, show List.drop 10 (129 :: 255 :: (p.length / 2 ^ 56 % 256) ::
      (p.length / 2 ^ 48 % 256) :: (p.length / 2 ^ 40 % 256) ::
      (p.length / 2 ^ 32 % 256) :: (p.length / 2 ^ 24 % 256) ::
      (p.length / 2 ^ 16 % 256) :: (p.length / 2 ^ 8 % 256) :: (p.length % 256) ::
      (key ++ xorMask key 0 p)) = key ++ xorMask key 0 p from rfl, ← hk, List.take_left]
  have hslicep : bufSlice (129 :: 255 :: (p.length / 2 ^ 56 % 256) ::
      (p.length / 2 ^ 48 % 256) :: (p.length / 2 ^ 40 % 256) ::
      (p.length / 2 ^ 32 % 256) :: (p.length / 2 ^ 24 % 256) ::
      (p.length / 2 ^ 16 % 256) :: (p.length / 2 ^ 8 % 256) :: (p.length % 256) ::
      (key ++ xorMask key 0 p)) (10 + 4) p.length = xorMask key 0 p := by
    rw [bufSlice, show List.drop (10 + 4) (129 :: 255 :: (p.length / 2 ^ 56 % 256) ::
      (p.length / 2 ^ 48 % 256) :: (p.length / 2 ^ 40 % 256) ::
      (p.length / 2 ^ 32 % 256) :: (p.length / 2 ^ 24 % 256) ::
      (p.length / 2 ^ 16 % 256) :: (p.length / 2 ^ 8 % 256) :: (p.length % 256) ::
      (key ++ xorMask key 0 p)) = List.drop 4 (key ++ xorMask key 0 p) from rfl,
      ← hk, List.drop_left]
    conv_lhs => rw [← xorMask_length key 0 p]
    exact List.take_length _
  rw [hslice4, hslicep, xorMask_xorMask]
  have hgd0 : (129 :: 255 :: (p.length / 2 ^ 56 % 256) :: (p.length / 2 ^ 48 % 256) ::
      (p.length / 2 ^ 40 % 256) :: (p.length / 2 ^ 32 % 256) ::
      (p.length / 2 ^ 24 % 256) :: (p.length / 2 ^ 16 % 256) ::
      (p.length / 2 ^ 8 % 256) :: (p.length % 256) ::
      (key ++ xorMask key 0 p)).getD 0 0 = 129 := rfl
  rw [hgd0, show (129 : ℕ) &&& 15 = 1 from rfl]

theorem parseAll_eq_none {buf : List ℕ} (h : parseOne buf = none) :
    parseAll buf = ([], buf) := by
  rw [parseAll]
  split
  · rfl
  · rename_i op p c h'
    rw [h] at h'
    cases h'

theorem parseAll_eq_some {buf : List ℕ} {op : ℕ} {p : List ℕ} {c : ℕ}
    (h : parseOne buf = some (op, p, c)) :
    parseAll buf =
      ((op, p) :: (parseAll (buf.drop c)).1, (parseAll (buf.drop c)).2) := by
  rw [parseAll]
  split
  · rename_i h'
    rw [h] at h'
    cases h'
  · rename_i op' p' c' h'
    rw [h] at h'
    injection h' with h''
    injection h'' with h1 h''
    injection h'' with h2 h3
    subst h1
    subst h2
    subst h3
    rfl

theorem parseAll_single {buf : List ℕ} {op : ℕ} {p : List ℕ} {c : ℕ}
    (h : parseOne buf = some (op, p, c)) (hc : c = buf.length) :
    parseAll buf = ([(op, p)], []) := by
  rw [parseAll_eq_some h, hc, List.drop_length,
    parseAll_eq_none (show parseOne [] = none from rfl)]

theorem roundtrip_general (p key : List ℕ) (hk : key.length = 4)
    (hlen : p.length < 2 ^ 64) :
    parseAll (maskFrame key (sendWSFrame p)) = ([(1, p)], []) := by
  by_cases h1 : p.length < 126
  · obtain ⟨ho, hl⟩ := roundtrip_tier1 hk h1
    exact parseAll_single ho (by omega)
  · by_cases h2 : p.length < 65536
    · obtain ⟨ho, hl⟩ := roundtrip_tier2 hk h1 h2
      exact parseAll_single ho (by omega)
    · obtain ⟨ho, hl⟩ := roundtrip_tier3 hk h1 h2 hlen
      exact parseAll_single ho (by omega)

/-- C8: for payload lengths 0, 1, 125, 126, 65535 and 65536, encoding
a frame with `sendWS` (FIN set, opcode text, unmasked, three-tier
length), then masking it with a 4-byte client key and decoding it with
the `parseBuffer` logic (XOR-unmasking with key[i mod 4]) yields the
original payload bytes, one whole text frame, and an empty remainder. -/
theorem frame_roundtrip (p key : List ℕ) (hk : key.length = 4)
    (hl : p.length = 0 ∨ p.length = 1 ∨ p.length = 125 ∨ p.length = 126 ∨
      p.length = 65535 ∨ p.length = 65536) :
    parseAll (maskFrame key (sendWSFrame p)) = ([(1, p)], []) := by
  apply roundtrip_general p key hk
  rcases hl with h | h | h | h | h | h <;> rw [h] <;> norm_num

/-- Witness for C8: the one-byte payload [7] masked with key
[1, 2, 3, 4] round-trips. -/
theorem frame_roundtrip_witness :
    ([1, 2, 3, 4] : List ℕ).length = 4 ∧
    parseAll (maskFrame [1, 2, 3, 4] (sendWSFrame [7])) = ([(1, [7])], []) :=
  ⟨rfl, frame_roundtrip [7] [1, 2, 3, 4] rfl (Or.inr (Or.inl rfl))⟩

/-! ## C9: the decode pass leaves no partially-consumed frame -/

theorem parseAll_rest (buf : List ℕ) :
    parseOne (parseAll buf).2 = none ∧ (parseAll buf).2.IsSuffix buf := by
  generalize hn : buf.length = n
  induction n using Nat.strong_induction_on generalizing buf with
  | _ n ih =>
    rcases hpo : parseOne buf with _ | ⟨op, p, c⟩
    · rw [parseAll_eq_none hpo]
      exact ⟨hpo, List.suffix_refl buf⟩
    · rw [parseAll_eq_some hpo]
      obtain ⟨hc2, hcle⟩ := parseOne_consumed hpo
      have hlt : (buf.drop c).length < n := by
        rw [← hn]
        simp only [List.length_drop]
        omega
      obtain ⟨h1, h2⟩ := ih _ hlt (buf.drop c) rfl
      exact ⟨h1, h2.trans (List.drop_suffix c buf)⟩

/-- C9: a frame is extracted only when the buffer holds the complete
header, optional mask and payload (otherwise the pass consumes nothing
and retains the bytes); each successful extraction drops exactly the
consumed prefix and decoding repeats; after a pass the retained buffer
is a suffix of the input from which no further frame is extractable —
it never contains a partially-consumed frame. -/
theorem parse_pass_invariant (buf : List ℕ) :
    (parseOne buf = none → parseAll buf = ([], buf)) ∧
    (∀ (op : ℕ) (p : List ℕ) (c : ℕ), parseOne buf = some (op, p, c) →
      parseAll buf =
        ((op, p) :: (parseAll (buf.drop c)).1, (parseAll (buf.drop c)).2)) ∧
    parseOne (parseAll buf).2 = none ∧
    (parseAll buf).2.IsSuffix buf :=
  ⟨parseAll_eq_none, fun _ _ _ h => parseAll_eq_some h,
    (parseAll_rest buf).1, (parseAll_rest buf).2⟩

/-- Witness for C9: a complete one-byte text frame decodes to an empty
retained buffer, and a lone header byte is retained untouched. -/
theorem parse_pass_invariant_witness :
    parseOne (parseAll [129, 1, 65]).2 = none ∧
    (parseAll [129, 1, 65]).2.IsSuffix [129, 1, 65] ∧
    parseAll [129] = ([], [129]) :=
  ⟨(parse_pass_invariant [129, 1, 65]).2.2.1,
    (parse_pass_invariant [129, 1, 65]).2.2.2,
    (parse_pass_invariant [129]).1 rfl⟩

end GameServer
